import Mathlib

/-!
Verification of the multi-backend streaming chat orchestration engine of
`chat-llm-terminal`.  The definitions below are a shallow embedding of the
relevant TypeScript functions of `src/App.tsx` / `src/unnamed/part_000`
(`processStream`, `handleSendMessage`, `handleGoogleGeminiStream`,
`handleTeamExecution`) and of the tool registry of `src/unnamed/part_002`.
Strings are Lean `String`s; the JavaScript string primitives used by the
code (`split`, `trim`, `toLowerCase`, `startsWith`, `substring`) are
re-implemented below on character lists so that every definition reduces
inside the kernel.
-/

/-- JS `s.startsWith(search)`. -/
def jsStartsWith (s search : String) : Bool :=
  search.data.isPrefixOf s.data

/-- JS `s.substring(n)` for an ASCII-indexed string: drop the first `n`
characters. -/
def jsSubstringFrom (s : String) (n : Nat) : String :=
  ⟨s.data.drop n⟩

/-- JS `s.trim()`: remove leading and trailing whitespace. -/
def jsTrim (s : String) : String :=
  ⟨((s.data.dropWhile Char.isWhitespace).reverse.dropWhile Char.isWhitespace).reverse⟩

/-- JS `s.toLowerCase()` (the inputs of interest are ASCII). -/
def jsToLowerCase (s : String) : String :=
  ⟨s.data.map Char.toLower⟩

/-- Fueled splitter over character lists implementing the semantics of JS
`String.prototype.split` with a non-empty separator.  The fuel is only a
termination device; `fuel ≥ length of the list` is always sufficient. -/
def splitChars (sep : List Char) : Nat → List Char → List (List Char)
  | _, [] => [[]]
  | 0, l => [l]
  | fuel + 1, c :: rest =>
    if sep.isPrefixOf (c :: rest) then
      [] :: splitChars sep fuel ((c :: rest).drop sep.length)
    else
      match splitChars sep fuel rest with
      | [] => [[c]]
      | h :: t => (c :: h) :: t

/-- JS `s.split(sep)` for a non-empty separator `sep`. -/
def jsSplit (sep s : String) : List String :=
  (splitChars sep.data s.data.length s.data).map fun l => ⟨l⟩

/-- State of the SSE stream decoder `processStream` of `src/App.tsx`
(lines 696-724): the accumulated `fullResponse`, the `firstChunk` flag and
the list of `updateFn(fullResponse, firstChunk)` invocations made so far,
in order. -/
structure StreamState where
  fullResponse : String
  firstChunk : Bool
  updates : List (String × Bool)
deriving DecidableEq, Repr

/-- One iteration of the `for (const line of lines)` body of
`processStream`.  The decoding of one event (`JSON.parse` followed by
`json.choices[0]?.delta?.content || ''`) is abstracted by the oracle
`decode`: `none` models a thrown parse error (swallowed by the
`try/catch`), `some c` models a successfully extracted content string
(possibly empty, in which case `if (content)` skips the update).  The
returned boolean is true exactly when the `[DONE]` sentinel executed
`break`. -/
def processLine (decode : String → Option String) (s : StreamState) (line : String) :
    StreamState × Bool :=
  if jsStartsWith line "data: " then
    let data := jsSubstringFrom line 6
    if data = "[DONE]" then (s, true)
    else
      match decode data with
      | none => (s, false)
      | some content =>
        if content = "" then (s, false)
        else
          let full := s.fullResponse ++ content
          ({ fullResponse := full, firstChunk := false,
             updates := s.updates ++ [(full, s.firstChunk)] }, false)
  else (s, false)

/-- The `for (const line of lines)` loop of `processStream`: process the
lines of one decoded transport chunk until exhaustion or until the
sentinel executes `break`. -/
def processLines (decode : String → Option String) : StreamState → List String → StreamState
  | s, [] => s
  | s, line :: rest =>
    match processLine decode s line with
    | (s2, true) => s2
    | (s2, false) => processLines decode s2 rest

/-- One iteration of the outer `while (true)` read loop of
`processStream`: split the decoded chunk on the double-newline event
separator and run the line loop. -/
def processChunk (decode : String → Option String) (s : StreamState) (chunk : String) :
    StreamState :=
  processLines decode s (jsSplit "\n\n" chunk)

/-- Initial decoder state (`fullResponse = ''`, `firstChunk = true`). -/
def streamInit : StreamState :=
  { fullResponse := "", firstChunk := true, updates := [] }

/-- The whole `processStream` of `src/App.tsx` lines 696-724, as a
function of the finite sequence of transport chunks delivered by
`reader.read()` before `done` becomes true. -/
def processStream (decode : String → Option String) (chunks : List String) : StreamState :=
  chunks.foldl (processChunk decode) streamInit

/-- Concatenation of a list of strings, in order. -/
def concatAll : List String → String
  | [] => ""
  | c :: cs => c ++ concatAll cs

/-- The update trace generated by yielding the increments `cs` one after
the other starting from accumulated text `acc` and first-chunk flag
`first`: each update carries the accumulated text so far, and only the
first update can carry a true flag. -/
def updatesFrom : String → Bool → List String → List (String × Bool)
  | _, _, [] => []
  | acc, first, c :: cs => (acc ++ c, first) :: updatesFrom (acc ++ c) false cs

/-- A string append is empty only if the left part is empty. -/
theorem strAppend_eq_empty_left {a b : String} (h : a ++ b = "") : a = "" := by
  cases a with
  | mk la =>
    cases b with
    | mk lb =>
      have hd : la ++ lb = ([] : List Char) := congrArg String.data h
      have : la = [] := List.append_eq_nil.mp hd |>.1
      simp [this]

/-- Concatenation distributes over list append. -/
theorem concatAll_append (l₁ l₂ : List String) :
    concatAll (l₁ ++ l₂) = concatAll l₁ ++ concatAll l₂ := by
  induction l₁ with
  | nil => simp [concatAll]
  | cons c t ih => simp [concatAll, ih, String.append_assoc]

/-- Concatenating a non-empty list of non-empty strings is non-empty. -/
theorem concatAll_ne_empty {l : List String} (hne : l ≠ []) (h : ∀ c ∈ l, c ≠ "") :
    concatAll l ≠ "" := by
  cases l with
  | nil => exact absurd rfl hne
  | cons c t =>
    intro hc
    exact h c (by simp) (strAppend_eq_empty_left hc)

/-- The update trace of a concatenated increment list splits into the two
traces, the second one starting from the accumulated text and flag left by
the first. -/
theorem updatesFrom_append (l₁ l₂ : List String) (acc : String) (first : Bool) :
    updatesFrom acc first (l₁ ++ l₂)
      = updatesFrom acc first l₁ ++ updatesFrom (acc ++ concatAll l₁) (first && l₁.isEmpty) l₂ := by
  induction l₁ generalizing acc first with
  | nil => simp [updatesFrom, concatAll]
  | cons c t ih =>
    simp only [List.cons_append, updatesFrom, List.append_eq]
    rw [ih]
    simp [concatAll, String.append_assoc]

/-- Relation between two decoder states: the second is obtained from the
first by yielding exactly the (non-empty) increments `cs`, in order. -/
def StreamStep (s s2 : StreamState) (cs : List String) : Prop :=
  (∀ c ∈ cs, c ≠ "") ∧
  s2.fullResponse = s.fullResponse ++ concatAll cs ∧
  s2.updates = s.updates ++ updatesFrom s.fullResponse s.firstChunk cs ∧
  s2.firstChunk = (s.firstChunk && cs.isEmpty)

/-- A state steps to itself with no increments. -/
theorem streamStep_refl (s : StreamState) : StreamStep s s [] := by
  refine ⟨by simp, by simp [concatAll], by simp [updatesFrom], by simp⟩

/-- Increment traces compose. -/
theorem streamStep_trans {s₁ s₂ s₃ : StreamState} {cs₁ cs₂ : List String}
    (h₁ : StreamStep s₁ s₂ cs₁) (h₂ : StreamStep s₂ s₃ cs₂) :
    StreamStep s₁ s₃ (cs₁ ++ cs₂) := by
  obtain ⟨hne₁, hf₁, hu₁, hc₁⟩ := h₁
  obtain ⟨hne₂, hf₂, hu₂, hc₂⟩ := h₂
  refine ⟨?_, ?_, ?_, ?_⟩
  · intro c hc
    rcases List.mem_append.mp hc with h | h
    · exact hne₁ c h
    · exact hne₂ c h
  · rw [hf₂, hf₁, concatAll_append, String.append_assoc]
  · rw [hu₂, hu₁, hf₁, hc₁, updatesFrom_append, List.append_assoc]
  · rw [hc₂, hc₁]
    cases cs₁ <;> cases cs₂ <;> simp

/-- Processing one line yields at most one increment, and the resulting
state is related to the input state by `StreamStep`. -/
theorem processLine_step (decode : String → Option String) (s : StreamState) (line : String) :
    ∃ cs, StreamStep s (processLine decode s line).1 cs := by
  unfold processLine
  by_cases h1 : jsStartsWith line "data: " = true
  · simp only [h1, if_true]
    by_cases h2 : jsSubstringFrom line 6 = "[DONE]"
    · simp only [h2, if_true]
      exact ⟨[], streamStep_refl s⟩
    · simp only [h2, if_false]
      cases hdec : decode (jsSubstringFrom line 6) with
      | none => exact ⟨[], streamStep_refl s⟩
      | some content =>
        by_cases h3 : content = ""
        · simp only [h3, if_true]
          exact ⟨[], streamStep_refl s⟩
        · simp only [h3, if_false]
          refine ⟨[content], ?_, ?_, ?_, ?_⟩
          · simpa using h3
          · simp [concatAll]
          · simp [updatesFrom]
          · simp
  · simp only [Bool.not_eq_true] at h1
    simp only [h1, Bool.false_eq_true, if_false]
    exact ⟨[], streamStep_refl s⟩

/-- The line loop of the decoder only ever extends the state by a trace of
non-empty increments. -/
theorem processLines_step (decode : String → Option String) (lines : List String) :
    ∀ s, ∃ cs, StreamStep s (processLines decode s lines) cs := by
  induction lines with
  | nil => exact fun s => ⟨[], streamStep_refl s⟩
  | cons line rest ih =>
    intro s
    obtain ⟨cs₁, hstep⟩ := processLine_step decode s line
    rcases hline : processLine decode s line with ⟨s2, b⟩
    rw [hline] at hstep
    cases b with
    | true => exact ⟨cs₁, by simpa [processLines, hline] using hstep⟩
    | false =>
      obtain ⟨cs₂, hrest⟩ := ih s2
      exact ⟨cs₁ ++ cs₂, by simpa [processLines, hline] using streamStep_trans hstep hrest⟩

/-- Processing one transport chunk only ever extends the state by a trace
of non-empty increments. -/
theorem processChunk_step (decode : String → Option String) (s : StreamState) (chunk : String) :
    ∃ cs, StreamStep s (processChunk decode s chunk) cs :=
  processLines_step decode (jsSplit "\n\n" chunk) s

/-- The outer read loop of the decoder only ever extends the state by a
trace of non-empty increments. -/
theorem processFold_step (decode : String → Option String) (chunks : List String) :
    ∀ s, ∃ cs, StreamStep s (chunks.foldl (processChunk decode) s) cs := by
  induction chunks with
  | nil => exact fun s => ⟨[], streamStep_refl s⟩
  | cons c rest ih =>
    intro s
    obtain ⟨cs₁, h₁⟩ := processChunk_step decode s c
    obtain ⟨cs₂, h₂⟩ := ih (processChunk decode s c)
    exact ⟨cs₁ ++ cs₂, by simpa [List.foldl_cons] using streamStep_trans h₁ h₂⟩

/-- Main decoder invariant: every run of `processStream` is described by a
list of non-empty content increments `cs`: the final accumulated text is
their concatenation and the update trace is exactly the partial
concatenations, the first one flagged as first chunk. -/
theorem processStream_spec (decode : String → Option String) (chunks : List String) :
    ∃ cs : List String, (∀ c ∈ cs, c ≠ "") ∧
      (processStream decode chunks).fullResponse = concatAll cs ∧
      (processStream decode chunks).updates = updatesFrom "" true cs := by
  obtain ⟨cs, hne, hf, hu, _⟩ := processFold_step decode chunks streamInit
  refine ⟨cs, hne, ?_, ?_⟩
  · simpa [processStream, streamInit] using hf
  · simpa [processStream, streamInit] using hu

/-- An update trace has one entry per increment. -/
theorem updatesFrom_length (cs : List String) :
    ∀ acc first, (updatesFrom acc first cs).length = cs.length := by
  induction cs with
  | nil => intro acc first; rfl
  | cons c t ih => intro acc first; simp [updatesFrom, ih]

/-- With a false incoming flag every entry of the trace carries `false`. -/
theorem updatesFrom_map_snd_false (cs : List String) :
    ∀ acc, (updatesFrom acc false cs).map Prod.snd = List.replicate cs.length false := by
  induction cs with
  | nil => intro acc; rfl
  | cons c t ih =>
    intro acc
    simp only [updatesFrom, List.map_cons, ih, List.length_cons,
      List.replicate_succ false t.length]

/-- In a non-empty update trace the first entry carries the incoming flag
and every later entry carries `false`. -/
theorem updatesFrom_map_snd (t : List String) (acc : String) (first : Bool) (c : String) :
    (updatesFrom acc first (c :: t)).map Prod.snd = first :: List.replicate t.length false := by
  simp only [updatesFrom, List.map_cons, updatesFrom_map_snd_false]

/-- The last entry of a non-empty update trace carries the full
concatenation of all increments. -/
theorem updatesFrom_getLastD (cs : List String) :
    ∀ acc (first : Bool) c (d : String × Bool),
      ((updatesFrom acc first (c :: cs)).getLastD d).1 = acc ++ concatAll (c :: cs) := by
  induction cs with
  | nil => intro acc first c d; simp [updatesFrom, concatAll]
  | cons e t ih =>
    intro acc first c d
    have h := ih (acc ++ c) false e d
    simp only [updatesFrom, List.getLastD_cons] at h ⊢
    rw [h]
    simp [concatAll, String.append_assoc]

/-- Entry `k` of an update trace carries the concatenation of the first
`k + 1` increments. -/
theorem updatesFrom_getD (cs : List String) :
    ∀ acc first k, k < cs.length →
      ((updatesFrom acc first cs).getD k ("", false)).1 = acc ++ concatAll (cs.take (k + 1)) := by
  induction cs with
  | nil => intro acc first k hk; simp at hk
  | cons c t ih =>
    intro acc first k hk
    cases k with
    | zero => simp [updatesFrom, concatAll]
    | succ k' =>
      simp only [updatesFrom, List.getD_cons_succ]
      rw [ih (acc ++ c) false k' (by simpa using hk)]
      simp [concatAll, String.append_assoc]

/-- Opening part of the conventional chat-completions event payload
`{"choices":[{"delta":{"content":"…"}}]}` used by the generic-HTTP
backends. -/
def jsonContentHead : String := "\x7b\"choices\":[\x7b\"delta\":\x7b\"content\":\""

/-- Closing part of the conventional chat-completions event payload. -/
def jsonContentTail : String := "\"\x7d\x7d]\x7d"

/-- Characters that JSON encodes literally inside a string. -/
def plainJsonChar (c : Char) : Bool := !(c == '\"' || c == '\\')

/-- Concrete instance of the decoding oracle used for closed test inputs:
it extracts `choices[0].delta.content` from a payload of exactly the shape
`jsonContentHead ++ content ++ jsonContentTail` with an escape-free
content, and answers `none` on everything else.  On payloads of that
shape it agrees with `JSON.parse` followed by
`json.choices[0]?.delta?.content || ''`; on every other payload the real
code likewise produces no update. -/
def decodeContentSimple (data : String) : Option String :=
  let h := jsonContentHead.data
  let t := jsonContentTail.data
  let l := data.data
  let mid := (l.drop h.length).take (l.length - h.length - t.length)
  if h.isPrefixOf l && t.isSuffixOf l && decide (h.length + t.length ≤ l.length)
      && mid.all plainJsonChar then
    some ⟨mid⟩
  else none

/-- A full SSE data line carrying the content `content`. -/
def sseEvent (content : String) : String :=
  "data: " ++ jsonContentHead ++ content ++ jsonContentTail

/-- The transport delivers the sentinel in one chunk and a normal content
event in a later chunk. -/
def c1Chunks : List String := ["data: [DONE]\n\n", sseEvent "X"]

/-- C1 counterexample: the claim says that the `[DONE]` sentinel
"terminates the overall read loop (no further chunks are consumed from
the transport)", which for `c1Chunks` would mean that no update is ever
yielded (the only event before the sentinel is the sentinel itself).  In
the code the `break` only leaves the inner `for (const line of lines)`
loop, so the second transport chunk is still consumed and its content is
yielded. -/
theorem c1_counterexample :
    (processStream decodeContentSimple c1Chunks).updates = [("X", true)] ∧
    (processStream decodeContentSimple c1Chunks).updates ≠ [] := by
  constructor
  · decide
  · decide

/-- The line loop breaks on a line exactly when the line is a `data: `
line whose payload is the `[DONE]` sentinel. -/
theorem processLine_break_iff (decode : String → Option String) (s : StreamState)
    (line : String) :
    (processLine decode s line).2 = true ↔
      (jsStartsWith line "data: " = true ∧ jsSubstringFrom line 6 = "[DONE]") := by
  unfold processLine
  by_cases h1 : jsStartsWith line "data: " = true
  · by_cases h2 : jsSubstringFrom line 6 = "[DONE]"
    · simp [h1, h2]
    · cases hdec : decode (jsSubstringFrom line 6) with
      | none => simp [h1, h2, hdec]
      | some content =>
        by_cases h3 : content = "" <;> simp [h1, h2, hdec, h3]
  · simp only [Bool.not_eq_true] at h1
    simp [h1]

/-- When the line loop breaks, the state is left unchanged by the
breaking line. -/
theorem processLine_break_state (decode : String → Option String) (s : StreamState)
    (line : String) (h1 : jsStartsWith line "data: " = true)
    (h2 : jsSubstringFrom line 6 = "[DONE]") :
    processLine decode s line = (s, true) := by
  unfold processLine
  simp [h1, h2]

/-- C1 (amended): the sentinel truncates only the current buffer.  For
every decode oracle, decoder state, and buffer whose line list is
`pre ++ line :: post` with `line` the first sentinel line, the events of
`pre` are processed exactly as if the sentinel were absent (so increments
before the sentinel are still yielded), the events of `post` are
discarded, and the outer read loop continues: all subsequent transport
chunks are still consumed and decoded. -/
theorem c1_sentinel_truncates_buffer_only (decode : String → Option String)
    (s : StreamState) (pre post chunks : List String) (line : String)
    (hline : jsStartsWith line "data: " = true ∧ jsSubstringFrom line 6 = "[DONE]")
    (hpre : ∀ l ∈ pre, ¬(jsStartsWith l "data: " = true ∧ jsSubstringFrom l 6 = "[DONE]")) :
    chunks.foldl (processChunk decode) (processLines decode s (pre ++ line :: post))
      = chunks.foldl (processChunk decode) (processLines decode s pre) := by
  have key : ∀ pre2 s2, (∀ l ∈ pre2, ¬(jsStartsWith l "data: " = true ∧
      jsSubstringFrom l 6 = "[DONE]")) →
      processLines decode s2 (pre2 ++ line :: post) = processLines decode s2 pre2 := by
    intro pre2
    induction pre2 with
    | nil =>
      intro s2 _
      simp only [List.nil_append, processLines,
        processLine_break_state decode s2 line hline.1 hline.2]
    | cons l rest ih =>
      intro s2 hp
      have hnb : (processLine decode s2 l).2 = false := by
        rcases hb : (processLine decode s2 l).2 with _ | _
        · rfl
        · exact absurd ((processLine_break_iff decode s2 l).mp hb) (hp l (by simp))
      rcases hl : processLine decode s2 l with ⟨s3, b⟩
      rw [hl] at hnb
      subst hnb
      simp only [List.cons_append, processLines, hl]
      exact ih s3 fun x hx => hp x (by simp [hx])
  rw [key pre s hpre]

/-- Closed instance of the amended C1 theorem: one normal event before
the sentinel, one discarded event after it, one later transport chunk. -/
theorem c1_sentinel_truncates_buffer_only_witness :
    [sseEvent "Y"].foldl (processChunk decodeContentSimple)
        (processLines decodeContentSimple streamInit
          ([sseEvent "X"] ++ "data: [DONE]" :: [sseEvent "Z"]))
      = [sseEvent "Y"].foldl (processChunk decodeContentSimple)
        (processLines decodeContentSimple streamInit [sseEvent "X"]) :=
  c1_sentinel_truncates_buffer_only decodeContentSimple streamInit
    [sseEvent "X"] [sseEvent "Z"] [sseEvent "Y"] "data: [DONE]"
    (by constructor <;> decide) (by decide)

/-- C5: stream-decoder accumulation postcondition.  Every run of
`processStream` is described by a list `cs` of non-empty content
increments: the update trace is exactly the sequence of partial
concatenations of `cs` (so each `updateFn` invocation passes the
concatenation of all content strings decoded so far, in event order), the
final accumulated text is the concatenation of all increments, the first
invocation and only the first carries `isFirstChunk = true`, and the text
of the final invocation equals the full concatenation. -/
theorem c5_stream_accumulation (decode : String → Option String) (chunks : List String) :
    ∃ cs : List String, (∀ c ∈ cs, c ≠ "") ∧
      (processStream decode chunks).updates = updatesFrom "" true cs ∧
      (processStream decode chunks).fullResponse = concatAll cs ∧
      ((processStream decode chunks).updates.map Prod.snd
          = true :: List.replicate ((processStream decode chunks).updates.length - 1) false
        ∨ (processStream decode chunks).updates = []) ∧
      ((processStream decode chunks).updates ≠ [] →
        ((processStream decode chunks).updates.getLastD ("", false)).1
          = (processStream decode chunks).fullResponse) := by
  obtain ⟨cs, hne, hfull, hup⟩ := processStream_spec decode chunks
  refine ⟨cs, hne, hup, hfull, ?_, ?_⟩
  · cases cs with
    | nil => right; rw [hup]; rfl
    | cons c t =>
      left
      rw [hup, updatesFrom_map_snd, updatesFrom_length]
      simp
  · intro hnonempty
    cases cs with
    | nil => exact absurd (by rw [hup]; rfl) hnonempty
    | cons c t =>
      rw [hup, hfull, updatesFrom_getLastD]
      rfl

/-- Closed instance of C5 at a concrete two-event stream, with the
final-update clause instantiated and its hypothesis discharged. -/
theorem c5_stream_accumulation_witness :
    ((processStream decodeContentSimple [sseEvent "Ho" ++ "\n\n" ++ sseEvent "la"]).updates.getLastD
        ("", false)).1
      = (processStream decodeContentSimple [sseEvent "Ho" ++ "\n\n" ++ sseEvent "la"]).fullResponse := by
  obtain ⟨cs, _, _, _, _, hlast⟩ :=
    c5_stream_accumulation decodeContentSimple [sseEvent "Ho" ++ "\n\n" ++ sseEvent "la"]
  exact hlast (by decide)

/-- C9 (implicit): strict prefix growth of streamed text.  Within a single
generic-HTTP stream the update callback is never invoked with an empty
increment, so any earlier update text is a proper prefix of any later
update text: the later text is the earlier text extended by a non-empty
suffix. -/
theorem c9_strict_prefix_growth (decode : String → Option String) (chunks : List String)
    (i j : Nat) (hij : i < j) (hj : j < (processStream decode chunks).updates.length) :
    ∃ d : String, d ≠ "" ∧
      ((processStream decode chunks).updates.getD j ("", false)).1
        = ((processStream decode chunks).updates.getD i ("", false)).1 ++ d := by
  obtain ⟨cs, hne, _, hup⟩ := processStream_spec decode chunks
  rw [hup] at hj ⊢
  rw [updatesFrom_length] at hj
  have hi : i < cs.length := lt_trans hij hj
  rw [updatesFrom_getD cs "" true j hj, updatesFrom_getD cs "" true i hi]
  have hsplit : cs.take (j + 1) = cs.take (i + 1) ++ ((cs.drop (i + 1)).take (j - i)) := by
    have harith : j + 1 = (i + 1) + (j - i) := by omega
    rw [harith, List.take_add]
  refine ⟨concatAll ((cs.drop (i + 1)).take (j - i)), ?_, ?_⟩
  · apply concatAll_ne_empty
    · apply List.ne_nil_of_length_pos
      rw [List.length_take, List.length_drop]
      omega
    · intro c hc
      exact hne c (List.take_subset _ _ (by simpa using hc) |> List.drop_subset _ _)
  · rw [hsplit, concatAll_append, String.append_assoc]

set_option maxRecDepth 10000 in
/-- Closed instance of C9: in a concrete two-event stream the second
update text properly extends the first. -/
theorem c9_strict_prefix_growth_witness :
    ∃ d : String, d ≠ "" ∧
      ((processStream decodeContentSimple
          [sseEvent "a" ++ "\n\n" ++ sseEvent "b"]).updates.getD 1 ("", false)).1
        = ((processStream decodeContentSimple
            [sseEvent "a" ++ "\n\n" ++ sseEvent "b"]).updates.getD 0 ("", false)).1 ++ d :=
  c9_strict_prefix_growth decodeContentSimple
    [sseEvent "a" ++ "\n\n" ++ sseEvent "b"] 0 1 (by decide) (by decide)

/-- ChatMessage of `src/types.ts`: id, role (`user`/`model`/`system`),
text, optional error flag (absent modelled as `false`). -/
structure ChatMessage where
  id : String
  role : String
  text : String
  isError : Bool
deriving DecidableEq, Repr

/-- Decision logic of `handleSendMessage` (`src/App.tsx` lines 430-451 /
`src/unnamed/part_000` lines 609-625) up to the dispatch to a backend
handler.  `none` models the early return (empty trimmed input, a turn
already in flight, or no active entity).  `some (h, net)` gives the
active conversation history immediately after the send is accepted and
whether a backend call is then issued: the `clear` command empties the
history and issues no call; any other input appends the user message and
proceeds to the provider handler.  `now` models `Date.now()`. -/
def handleSendMessage (input : String) (isLoading : Bool) (hasActiveEntity : Bool)
    (history : List ChatMessage) (now : Nat) : Option (List ChatMessage × Bool) :=
  if jsTrim input = "" ∨ isLoading = true ∨ hasActiveEntity = false then none
  else
    let userMessageText := jsTrim input
    if jsToLowerCase userMessageText = "clear" then some ([], false)
    else
      some (history ++ [{ id := "user-" ++ toString now, role := "user",
                          text := userMessageText, isError := false }], true)

/-- C6: the `clear` command.  With no turn in flight and an active
entity, any input whose trimmed, lowercased form is `clear` empties the
active conversation history and issues no network call (and appends no
message), while any other non-empty input first appends a user message
carrying the trimmed text and proceeds to a backend call. -/
theorem c6_clear_command (input : String) (history : List ChatMessage) (now : Nat) :
    (jsToLowerCase (jsTrim input) = "clear" →
      handleSendMessage input false true history now = some ([], false)) ∧
    (jsTrim input ≠ "" → jsToLowerCase (jsTrim input) ≠ "clear" →
      handleSendMessage input false true history now
        = some (history ++ [{ id := "user-" ++ toString now, role := "user",
                              text := jsTrim input, isError := false }], true)) := by
  constructor
  · intro hclear
    have hne : jsTrim input ≠ "" := by
      intro h0
      rw [h0] at hclear
      exact absurd hclear (by decide)
    simp [handleSendMessage, hne, hclear]
  · intro hne hnclear
    simp [handleSendMessage, hne, hnclear]

/-- Closed instance of C6: the input `"  CLEAR "` empties a non-empty
history with no network call, and the input `"hola"` appends a user
message and proceeds to the backend. -/
theorem c6_clear_command_witness :
    handleSendMessage "  CLEAR " false true
        [{ id := "m1", role := "model", text := "hola", isError := false }] 7
      = some ([], false) ∧
    handleSendMessage "hola" false true [] 7
      = some ([{ id := "user-7", role := "user", text := "hola", isError := false }], true) :=
  ⟨(c6_clear_command "  CLEAR "
      [{ id := "m1", role := "model", text := "hola", isError := false }] 7).1 (by decide),
   by
    have h := (c6_clear_command "hola" [] 7).2 (by decide) (by decide)
    simpa using h⟩

/-- A structured function call requested by the model (`FunctionCall` of
the provider SDK): the declared tool name and its arguments, the latter
kept opaque as their serialized form. -/
structure FunctionCall where
  name : String
  args : String
deriving DecidableEq, Repr

/-- Payload of one tool-response entry: either `{ result }` wrapping the
value returned by `execute`, or `{ error }` with a fixed message. -/
inductive ToolResponsePayload where
  | result (value : String)
  | error (message : String)
deriving DecidableEq, Repr

/-- One `{ functionResponse: { name, response } }` entry. -/
structure ToolResponse where
  name : String
  response : ToolResponsePayload
deriving DecidableEq, Repr

/-- A registry tool of `src/unnamed/part_002`: its UI label, the `name`
of its function declaration, and whether it has an `execute` function
(the declaration's description and parameter schema are opaque data never
inspected by the orchestrator and are not modelled). -/
structure Tool where
  label : String
  declName : String
  hasExecute : Bool
deriving DecidableEq, Repr

/-- The concrete `toolRegistry` of `src/unnamed/part_002`:
`native_google_search` has no `execute` (handled natively), the other two
tools are executable. -/
def toolRegistry : List (String × Tool) :=
  [("native_google_search",
      { label := "Búsqueda Web (Google)", declName := "google_search", hasExecute := false }),
   ("get_financial_data",
      { label := "Obtener Datos Financieros (Cripto en Vivo)",
        declName := "get_financial_data", hasExecute := true }),
   ("get_current_datetime",
      { label := "Obtener Fecha y Hora Actual",
        declName := "get_current_datetime", hasExecute := true })]

/-- The lookup `Object.values(toolRegistry).find(t => t.declaration.name
=== fc.name)` of `src/App.tsx` line 579. -/
def findToolByName (name : String) : Option Tool :=
  (toolRegistry.map Prod.snd).find? fun t => t.declName = name

/-- One element of the `Promise.all(functionCalls.map(...))` fan-out of
`src/App.tsx` lines 577-586.  The oracle `exec` models
`tool.execute(fc.args)`: `.ok v` is a resolved value, `.error m` a
rejected promise.  There is no `try/catch` around the `await
tool.execute(...)` in the source, so a rejection is propagated (modelled
by the `Except` error), while a missing or non-executable tool produces
the fixed error payload. -/
def runToolCall (exec : String → String → Except String String) (fc : FunctionCall) :
    Except String ToolResponse :=
  match findToolByName fc.name with
  | some tool =>
    if tool.hasExecute then
      match exec fc.name fc.args with
      | .ok v => .ok { name := fc.name, response := .result v }
      | .error m => .error m
    else .ok { name := fc.name, response := .error "Herramienta no encontrada o no ejecutable" }
  | none => .ok { name := fc.name, response := .error "Herramienta no encontrada o no ejecutable" }

/-- The whole `Promise.all` fan-out/fan-in: all calls settle in request
order; any rejection rejects the whole batch. -/
def runToolCalls (exec : String → String → Except String String) (fcs : List FunctionCall) :
    Except String (List ToolResponse) :=
  fcs.mapM (runToolCall exec)

/-- One part of a provider content turn. -/
inductive TurnPart where
  | text (s : String)
  | functionCall (fc : FunctionCall)
  | functionResponse (tr : ToolResponse)
deriving DecidableEq, Repr

/-- One `{ role, parts }` turn of a generation request. -/
structure Content where
  role : String
  parts : List TurnPart
deriving DecidableEq, Repr

/-- A generation request as issued by `handleGoogleGeminiStream`:
`contents`, `config.systemInstruction` and `config.tools`
(`none` models `undefined`; `some ds` models
`[{ functionDeclarations: ds }]`, each declaration kept by its name). -/
structure GenRequest where
  contents : List Content
  systemInstruction : String
  toolDecls : Option (List String)
deriving DecidableEq, Repr

/-- The history mapping `history.map(msg => ({ role: msg.role, parts:
[{ text: msg.text }] }))` of `src/App.tsx` lines 495-498. -/
def mapHistory (history : List ChatMessage) : List Content :=
  history.map fun m => { role := m.role, parts := [TurnPart.text m.text] }

/-- The collection of enabled custom tools of `src/App.tsx` lines
543-546: drop the native-search marker, look each id up in the registry
and keep the declarations that exist (kept by name). -/
def customToolsOf (agentTools : List String) : List String :=
  (agentTools.filter fun id => id ≠ "native_google_search").filterMap
    fun id => (toolRegistry.find? fun p => p.1 = id).map fun p => p.2.declName

/-- The `tools` field sent with both generation calls:
`customTools.length > 0 ? [{ functionDeclarations: customTools }] :
undefined`. -/
def toolsConfig (customTools : List String) : Option (List String) :=
  if customTools.length > 0 then some customTools else none

/-- The first generation request of the custom-tools branch. -/
def firstRequest (contents : List Content) (instructions : String)
    (customTools : List String) : GenRequest :=
  { contents := contents, systemInstruction := instructions,
    toolDecls := toolsConfig customTools }

/-- The continuation request built after tool execution (`src/App.tsx`
lines 588-601): the original contents, then one model-role turn whose
parts are the function calls, then one function-role turn whose parts are
the tool responses, with the same system instruction and the same tools
configuration as the first call. -/
def continuationRequest (contents : List Content) (instructions : String)
    (customTools : List String) (fcs : List FunctionCall) (trs : List ToolResponse) :
    GenRequest :=
  { contents := contents
      ++ [{ role := "model", parts := fcs.map TurnPart.functionCall },
          { role := "function", parts := trs.map TurnPart.functionResponse }],
    systemInstruction := instructions,
    toolDecls := toolsConfig customTools }

/-- The tool round-trip of the custom-tools branch after the first
stream has been consumed: with no function calls nothing happens
(`.ok none`); otherwise all requested calls are executed via the registry
and, if every promise settles, the continuation request is issued
(`.ok (some request)`); a rejected `execute` rejects the whole phase and
no continuation call is made. -/
def toolPhase (exec : String → String → Except String String) (contents : List Content)
    (instructions : String) (customTools : List String) (fcs : List FunctionCall) :
    Except String (Option GenRequest) :=
  if fcs.isEmpty then .ok none
  else (runToolCalls exec fcs).map fun trs =>
    some (continuationRequest contents instructions customTools fcs trs)

/-- Specification of one settled tool call: the response entry carries the
call's name; if the first registry tool with a matching declaration name
is executable the entry wraps the executor's value as `{ result }`, and
otherwise (no match, or match without `execute`) the entry is the fixed
`{ error: 'Herramienta no encontrada o no ejecutable' }` payload. -/
def ToolCallOutcome (exec : String → String → Except String String)
    (fc : FunctionCall) (tr : ToolResponse) : Prop :=
  tr.name = fc.name ∧
  match findToolByName fc.name with
  | some t =>
    if t.hasExecute then ∃ v, exec fc.name fc.args = .ok v ∧ tr.response = .result v
    else tr.response = .error "Herramienta no encontrada o no ejecutable"
  | none => tr.response = .error "Herramienta no encontrada o no ejecutable"

/-- Hypothesis that every call whose resolved tool is executable has a
resolving (non-rejecting) executor. -/
@[reducible] def ExecSettles (exec : String → String → Except String String) (fc : FunctionCall) : Prop :=
  (((findToolByName fc.name).all fun t => !t.hasExecute) || (exec fc.name fc.args).isOk) = true

/-- A single settled tool call produces exactly the specified entry. -/
theorem runToolCall_ok (exec : String → String → Except String String) (fc : FunctionCall)
    (h : ExecSettles exec fc) :
    ∃ tr, runToolCall exec fc = .ok tr ∧ ToolCallOutcome exec fc tr := by
  unfold ExecSettles at h
  cases hfind : findToolByName fc.name with
  | none =>
    refine ⟨{ name := fc.name,
              response := .error "Herramienta no encontrada o no ejecutable" }, ?_, ?_⟩
    · simp [runToolCall, hfind]
    · unfold ToolCallOutcome
      rw [hfind]
      exact ⟨rfl, rfl⟩
  | some t =>
    by_cases hex : t.hasExecute = true
    · rw [hfind] at h
      simp only [Option.all_some, hex, Bool.not_true, Bool.false_or] at h
      cases hrun : exec fc.name fc.args with
      | ok v =>
        refine ⟨{ name := fc.name, response := .result v }, ?_, ?_⟩
        · simp [runToolCall, hfind, hex, hrun]
        · unfold ToolCallOutcome
          refine ⟨rfl, ?_⟩
          simp [hfind, hex, hrun]
      | error m =>
        rw [hrun] at h
        simp [Except.isOk, Except.toBool] at h
    · simp only [Bool.not_eq_true] at hex
      refine ⟨{ name := fc.name,
                response := .error "Herramienta no encontrada o no ejecutable" }, ?_, ?_⟩
      · simp [runToolCall, hfind, hex]
      · unfold ToolCallOutcome
        refine ⟨rfl, ?_⟩
        simp [hfind, hex]

/-- If every requested call settles, the `Promise.all` batch resolves to
one entry per call, in call order, each described by `ToolCallOutcome`. -/
theorem runToolCalls_ok (exec : String → String → Except String String)
    (fcs : List FunctionCall) (h : ∀ fc ∈ fcs, ExecSettles exec fc) :
    ∃ trs, runToolCalls exec fcs = .ok trs ∧ List.Forall₂ (ToolCallOutcome exec) fcs trs := by
  induction fcs with
  | nil => exact ⟨[], rfl, List.Forall₂.nil⟩
  | cons fc rest ih =>
    obtain ⟨tr, hrun, hout⟩ := runToolCall_ok exec fc (h fc (by simp))
    obtain ⟨trs, hruns, houts⟩ := ih fun x hx => h x (by simp [hx])
    refine ⟨tr :: trs, ?_, List.Forall₂.cons hout houts⟩
    show (fc :: rest).mapM (runToolCall exec) = Except.ok (tr :: trs)
    rw [List.mapM_cons, hrun]
    have hr : rest.mapM (runToolCall exec) = Except.ok trs := hruns
    rw [hr]
    rfl

/-- If any member of the batch rejects, the whole `Promise.all` batch
rejects. -/
theorem runToolCalls_error_of_mem (exec : String → String → Except String String)
    {fcs : List FunctionCall} {fc : FunctionCall} {e : String} (hmem : fc ∈ fcs)
    (hcall : runToolCall exec fc = .error e) :
    ∃ e2, runToolCalls exec fcs = .error e2 := by
  induction fcs with
  | nil => simp at hmem
  | cons hd tl ih =>
    rcases List.mem_cons.mp hmem with heq | hmem2
    · subst heq
      refine ⟨e, ?_⟩
      show (fc :: tl).mapM (runToolCall exec) = Except.error e
      rw [List.mapM_cons, hcall]
      rfl
    · cases hhd : runToolCall exec hd with
      | error e3 =>
        refine ⟨e3, ?_⟩
        show (hd :: tl).mapM (runToolCall exec) = Except.error e3
        rw [List.mapM_cons, hhd]
        rfl
      | ok tr =>
        obtain ⟨e2, htl⟩ := ih hmem2
        refine ⟨e2, ?_⟩
        show (hd :: tl).mapM (runToolCall exec) = Except.error e2
        rw [List.mapM_cons, hhd]
        have hr : tl.mapM (runToolCall exec) = Except.error e2 := htl
        rw [hr]
        rfl

/-- C4: native tool-call continuation request shape.  For every first
stream yielding the non-empty function-call list `fcs`, if every
requested execution settles, the second generation request consists of
the original mapped history followed by exactly one model-role turn whose
parts are the function calls in the order received and then exactly one
function-role turn whose parts are the matching tool responses (one per
call), with the same system instruction and the same tools configuration
as the first request. -/
theorem c4_continuation_request_shape (exec : String → String → Except String String)
    (history : List ChatMessage) (instructions : String) (customTools : List String)
    (fcs : List FunctionCall) (hne : fcs ≠ [])
    (hok : ∀ fc ∈ fcs, ExecSettles exec fc) :
    ∃ trs : List ToolResponse, trs.length = fcs.length ∧
      List.Forall₂ (fun (fc : FunctionCall) (tr : ToolResponse) => tr.name = fc.name) fcs trs ∧
      toolPhase exec (mapHistory history) instructions customTools fcs
        = .ok (some
            { contents := mapHistory history
                ++ [{ role := "model", parts := fcs.map TurnPart.functionCall },
                    { role := "function", parts := trs.map TurnPart.functionResponse }],
              systemInstruction :=
                (firstRequest (mapHistory history) instructions customTools).systemInstruction,
              toolDecls :=
                (firstRequest (mapHistory history) instructions customTools).toolDecls }) := by
  obtain ⟨trs, hruns, houts⟩ := runToolCalls_ok exec fcs hok
  refine ⟨trs, houts.length_eq.symm, houts.imp fun _ _ h => h.1, ?_⟩
  unfold toolPhase
  rw [if_neg (by simpa [List.isEmpty_iff] using hne), hruns]
  rfl

/-- Closed instance of C4 with one user turn and one executable tool
call. -/
theorem c4_continuation_request_shape_witness :
    ∃ trs : List ToolResponse,
      trs.length = [({ name := "get_current_datetime", args := "\x7b\x7d" } : FunctionCall)].length ∧
      List.Forall₂ (fun (fc : FunctionCall) (tr : ToolResponse) => tr.name = fc.name)
        [{ name := "get_current_datetime", args := "\x7b\x7d" }] trs ∧
      toolPhase (fun n _ => .ok ("valor-" ++ n))
          (mapHistory [{ id := "u1", role := "user", text := "hola", isError := false }])
          "instrucciones" ["get_current_datetime"]
          [{ name := "get_current_datetime", args := "\x7b\x7d" }]
        = .ok (some
            { contents :=
                mapHistory [{ id := "u1", role := "user", text := "hola", isError := false }]
                ++ [{ role := "model",
                      parts := [({ name := "get_current_datetime", args := "\x7b\x7d" } :
                        FunctionCall)].map TurnPart.functionCall },
                    { role := "function", parts := trs.map TurnPart.functionResponse }],
              systemInstruction :=
                (firstRequest
                  (mapHistory [{ id := "u1", role := "user", text := "hola", isError := false }])
                  "instrucciones" ["get_current_datetime"]).systemInstruction,
              toolDecls :=
                (firstRequest
                  (mapHistory [{ id := "u1", role := "user", text := "hola", isError := false }])
                  "instrucciones" ["get_current_datetime"]).toolDecls }) :=
  c4_continuation_request_shape (fun n _ => .ok ("valor-" ++ n))
    [{ id := "u1", role := "user", text := "hola", isError := false }]
    "instrucciones" ["get_current_datetime"]
    [{ name := "get_current_datetime", args := "\x7b\x7d" }]
    (by decide) (by decide)

/-- C10 (implicit): unknown-tool fallback.  If every call that resolves
to an executable tool settles, the batch resolves to exactly one
`functionResponse` entry per requested call, in call order, each bearing
the call's name; a call whose name matches no executable registry tool
gets the fixed `{ error: 'Herramienta no encontrada o no ejecutable' }`
payload (see `ToolCallOutcome`); and for a non-empty call list the
continuation request is still issued. -/
theorem c10_unknown_tool_fallback (exec : String → String → Except String String)
    (contents : List Content) (instructions : String) (customTools : List String)
    (fcs : List FunctionCall) (hok : ∀ fc ∈ fcs, ExecSettles exec fc) :
    ∃ trs, runToolCalls exec fcs = .ok trs ∧
      List.Forall₂ (ToolCallOutcome exec) fcs trs ∧
      (fcs ≠ [] → toolPhase exec contents instructions customTools fcs
          = .ok (some (continuationRequest contents instructions customTools fcs trs))) := by
  obtain ⟨trs, hruns, houts⟩ := runToolCalls_ok exec fcs hok
  refine ⟨trs, hruns, houts, fun hne => ?_⟩
  unfold toolPhase
  rw [if_neg (by simpa [List.isEmpty_iff] using hne), hruns]
  rfl

/-- Closed instance of C10 with one unknown tool name: the batch
resolves, pairing the call with its fallback entry, and the continuation
is issued. -/
theorem c10_unknown_tool_fallback_witness :
    ∃ trs,
      runToolCalls (fun _ _ => .error "nunca llamado")
          [{ name := "tool_inexistente", args := "" }] = .ok trs ∧
      List.Forall₂ (ToolCallOutcome fun _ _ => .error "nunca llamado")
        [{ name := "tool_inexistente", args := "" }] trs ∧
      ([({ name := "tool_inexistente", args := "" } : FunctionCall)] ≠ [] →
        toolPhase (fun _ _ => .error "nunca llamado") [] "inst" []
            [{ name := "tool_inexistente", args := "" }]
          = .ok (some (continuationRequest [] "inst" []
              [{ name := "tool_inexistente", args := "" }] trs))) :=
  c10_unknown_tool_fallback (fun _ _ => .error "nunca llamado") [] "inst" []
    [{ name := "tool_inexistente", args := "" }] (by decide)

/-- C2 counterexample: a single rejecting `execute` is NOT caught and
converted into an `{error}` payload; the rejection propagates through
`Promise.all`, the tool phase rejects, no continuation call is made, and
the surrounding catch in `handleSendMessage` flags the turn's message as
an error.  The claim asserts the continuation call would still proceed. -/
theorem c2_counterexample :
    toolPhase (fun _ _ => Except.error "fallo de red") [] "instrucciones"
        ["get_current_datetime"]
        [{ name := "get_current_datetime", args := "\x7b\x7d" }]
      = Except.error "fallo de red" := by
  rfl

/-- C2 (amended): tool execution failure IS fatal to the turn.  If any
requested call resolves to an executable registry tool whose `execute`
rejects, the whole tool phase rejects: no continuation request is
constructed, sibling results are discarded with the batch, and the error
propagates to the orchestrator's catch (which flags the turn's message as
an error).  Only a call matching no executable tool is converted into the
fixed `{error}` payload. -/
theorem c2_tool_rejection_aborts_turn (exec : String → String → Except String String)
    (contents : List Content) (instructions : String) (customTools : List String)
    (fcs : List FunctionCall) (fc : FunctionCall) (hmem : fc ∈ fcs) (t : Tool)
    (hfind : findToolByName fc.name = some t) (hex : t.hasExecute = true)
    (e : String) (herr : exec fc.name fc.args = .error e) :
    ∃ e2, toolPhase exec contents instructions customTools fcs = .error e2 := by
  have hcall : runToolCall exec fc = .error e := by
    unfold runToolCall
    rw [hfind]
    simp [hex, herr]
  obtain ⟨e2, hbatch⟩ := runToolCalls_error_of_mem exec hmem hcall
  refine ⟨e2, ?_⟩
  unfold toolPhase
  rw [if_neg (by simpa [List.isEmpty_iff] using List.ne_nil_of_mem hmem), hbatch]
  rfl

/-- Closed instance of the amended C2: a rejecting `get_financial_data`
aborts the tool phase. -/
theorem c2_tool_rejection_aborts_turn_witness :
    ∃ e2, toolPhase (fun _ _ => Except.error "rechazo") [] "inst2" []
        [{ name := "get_financial_data", args := "\x7b\"ticker\":\"BTC-USD\"\x7d" }]
      = Except.error e2 :=
  c2_tool_rejection_aborts_turn (fun _ _ => Except.error "rechazo") [] "inst2" []
    [{ name := "get_financial_data", args := "\x7b\"ticker\":\"BTC-USD\"\x7d" }]
    { name := "get_financial_data", args := "\x7b\"ticker\":\"BTC-USD\"\x7d" }
    (by simp)
    { label := "Obtener Datos Financieros (Cripto en Vivo)",
      declName := "get_financial_data", hasExecute := true }
    (by decide) rfl "rechazo" rfl

/-- The `web` field of a grounding chunk (`chunk.web?.uri`,
`chunk.web?.title`): both fields optional, and possibly empty strings. -/
structure WebInfo where
  uri : Option String
  title : Option String
deriving DecidableEq, Repr

/-- One grounding-source entry of the metadata attached to a stream
chunk. -/
structure GroundingChunk where
  web : Option WebInfo
deriving DecidableEq, Repr

/-- One chunk of the native-search stream: optional incremental text and
the optional `candidates?.[0]?.groundingMetadata?.groundingChunks` list
(the optional chain collapsed into one `Option`). -/
structure SearchChunk where
  text : Option String
  groundingChunks : Option (List GroundingChunk)
deriving DecidableEq, Repr

/-- Loop state of the native-search branch of `handleGoogleGeminiStream`
(`src/App.tsx` lines 503-539): accumulated text, first-chunk flag, the
`updateFn` invocations made so far (this branch never passes a message
id, so every update targets the turn's default message), and the last
grounding metadata seen. -/
structure SearchState where
  fullResponse : String
  firstChunk : Bool
  updates : List (String × Bool)
  groundingMetadata : Option (List GroundingChunk)
deriving DecidableEq, Repr

/-- One iteration of the `for await (const chunk of result)` loop of the
native-search branch: a non-empty text delta extends the accumulated text
and fires an update; grounding metadata, when present, overwrites the
remembered metadata. -/
def searchStep (s : SearchState) (c : SearchChunk) : SearchState :=
  let s1 :=
    match c.text with
    | some t =>
      if t = "" then s
      else
        { s with fullResponse := s.fullResponse ++ t, firstChunk := false,
                 updates := s.updates ++ [(s.fullResponse ++ t, s.firstChunk)] }
    | none => s
  match c.groundingChunks with
  | some l => { s1 with groundingMetadata := some l }
  | none => s1

/-- Initial state of the native-search branch. -/
def searchInit : SearchState :=
  { fullResponse := "", firstChunk := true, updates := [], groundingMetadata := none }

/-- The markdown source line of one grounding chunk
(`chunk.web?.uri && `* [${chunk.web.title || chunk.web.uri}](${chunk.web.uri})``),
`none` when the entry carries no (non-empty) URL; `filter(Boolean)` of
the source is the `filterMap` in `sourcesOf`. -/
def formatSource (gc : GroundingChunk) : Option String :=
  match gc.web with
  | some w =>
    match w.uri with
    | some u =>
      if u = "" then none
      else
        some ("* [" ++ (match w.title with
          | some t => if t = "" then u else t
          | none => u) ++ "](" ++ u ++ ")")
    | none => none
  | none => none

/-- The `sources` array of `src/App.tsx` lines 530-532: one markdown line
per URL-bearing grounding entry, in metadata order, duplicates kept. -/
def sourcesOf (l : List GroundingChunk) : List String :=
  l.filterMap formatSource

/-- JS `Array.prototype.join(sep)`. -/
def joinSep (sep : String) : List String → String
  | [] => ""
  | [x] => x
  | x :: y :: xs => x ++ sep ++ joinSep sep (y :: xs)

/-- The after-stream source appending of `src/App.tsx` lines 529-539: if
grounding metadata was returned and non-empty and formats to a non-empty
source list, append the markdown source block to the accumulated text and
fire one more non-first update (still with no message id). -/
def searchFinalize (s : SearchState) : SearchState :=
  match s.groundingMetadata with
  | some l =>
    if l.length > 0 then
      let sources := sourcesOf l
      if sources.length > 0 then
        { s with
          fullResponse := s.fullResponse ++ "\n\n---\n**Fuentes:**\n" ++ joinSep "\n" sources,
          updates := s.updates
            ++ [(s.fullResponse ++ "\n\n---\n**Fuentes:**\n" ++ joinSep "\n" sources, false)] }
      else s
    else s
  | none => s

/-- The whole native-search branch as a function of the stream chunks. -/
def runSearchBranch (chunks : List SearchChunk) : SearchState :=
  searchFinalize (chunks.foldl searchStep searchInit)

/-- C8 counterexample: the source list is NOT deduplicated by URL.  Two
grounding entries with the same URL produce two identical markdown lines,
and the final update's text carries the duplicate line twice, contrary to
the claimed deduplication. -/
theorem c8_counterexample :
    sourcesOf [{ web := some { uri := some "https://a.example", title := none } },
               { web := some { uri := some "https://a.example", title := none } }]
      = ["* [https://a.example](https://a.example)",
         "* [https://a.example](https://a.example)"] ∧
    (sourcesOf [{ web := some { uri := some "https://a.example", title := none } },
                { web := some { uri := some "https://a.example", title := none } }]).dedup
      ≠ sourcesOf [{ web := some { uri := some "https://a.example", title := none } },
                   { web := some { uri := some "https://a.example", title := none } }] ∧
    (runSearchBranch
        [{ text := some "hola",
           groundingChunks := some
             [{ web := some { uri := some "https://a.example", title := none } },
              { web := some { uri := some "https://a.example", title := none } }] }]).updates
      = [("hola", true),
         ("hola" ++ "\n\n---\n**Fuentes:**\n"
            ++ "* [https://a.example](https://a.example)\n* [https://a.example](https://a.example)",
          false)] := by
  refine ⟨by decide, by decide, by decide⟩

/-- C8 (amended): native-search source appending without deduplication.
After the stream ends, if the last grounding metadata is a non-empty list
whose URL-bearing entries format to a non-empty source list (duplicates
kept, one line per URL-bearing entry in order), exactly one additional
non-first update is appended to the same message (no message id is ever
passed in this branch) whose text is the accumulated response text plus
the markdown source block; otherwise no extra update is made. -/
theorem c8_source_appending (chunks : List SearchChunk) :
    (∀ l, (chunks.foldl searchStep searchInit).groundingMetadata = some l → l ≠ [] →
      sourcesOf l ≠ [] →
      (runSearchBranch chunks).updates
        = (chunks.foldl searchStep searchInit).updates
          ++ [((chunks.foldl searchStep searchInit).fullResponse
                ++ "\n\n---\n**Fuentes:**\n" ++ joinSep "\n" (sourcesOf l), false)]) ∧
    ((∀ l, (chunks.foldl searchStep searchInit).groundingMetadata = some l →
        l = [] ∨ sourcesOf l = []) →
      (runSearchBranch chunks).updates = (chunks.foldl searchStep searchInit).updates) := by
  constructor
  · intro l hmd hl hs
    have hl2 : 0 < l.length := List.length_pos.mpr hl
    have hs2 : 0 < (sourcesOf l).length := List.length_pos.mpr hs
    unfold runSearchBranch searchFinalize
    rw [hmd]
    simp [hl2, hs2]
  · intro hnone
    unfold runSearchBranch searchFinalize
    cases hmd : (chunks.foldl searchStep searchInit).groundingMetadata with
    | none => rfl
    | some l =>
      rcases hnone l hmd with hl | hs
      · subst hl
        simp
      · cases l with
        | nil => simp
        | cons g gs => simp [hs]

/-- Closed instance of the amended C8: one text delta plus one
URL-bearing grounding entry yields exactly one extra non-first update
carrying the source block. -/
theorem c8_source_appending_witness :
    (runSearchBranch
        [{ text := some "hola",
           groundingChunks := some
             [{ web := some { uri := some "https://a", title := some "A" } }] }]).updates
      = ([({ text := some "hola",
             groundingChunks := some
               [{ web := some { uri := some "https://a", title := some "A" } }] } :
            SearchChunk)].foldl searchStep searchInit).updates
        ++ [(([({ text := some "hola",
                  groundingChunks := some
                    [{ web := some { uri := some "https://a", title := some "A" } }] } :
                 SearchChunk)].foldl searchStep searchInit).fullResponse
              ++ "\n\n---\n**Fuentes:**\n"
              ++ joinSep "\n" (sourcesOf
                   [{ web := some { uri := some "https://a", title := some "A" } }]), false)] :=
  (c8_source_appending
      [{ text := some "hola",
         groundingChunks := some
           [{ web := some { uri := some "https://a", title := some "A" } }] }]).1
    [{ web := some { uri := some "https://a", title := some "A" } }]
    (by decide) (by decide) (by decide)

/-- An Agent of `src/types.ts`: the fields the orchestration engine
reads (`id`, `name`, `instructions`, `tools`; the optional advisory
fields are never transmitted and are not modelled). -/
structure Agent where
  id : String
  name : String
  instructions : String
  tools : List String
deriving DecidableEq, Repr

/-- A team member: a weak reference to an agent by id. -/
structure TeamMember where
  agentId : String
deriving DecidableEq, Repr

/-- A Team of `src/types.ts`. -/
structure Team where
  id : String
  name : String
  objective : String
  members : List TeamMember
deriving DecidableEq, Repr

/-- One chat message emitted during a team execution, as (role, text);
every emitted message is appended as a fresh message
(`updateFn(text, true, id, role)`). -/
structure TeamMsg where
  role : String
  text : String
deriving DecidableEq, Repr

/-- State of `handleTeamExecution`: the messages emitted so far, in
order, and the accumulated `intermediateResults` buffer. -/
structure TeamState where
  messages : List TeamMsg
  buffer : String
deriving DecidableEq, Repr

/-- The composite prompt of `src/unnamed/part_000` lines 689-698. -/
def promptForAgent (agent : Agent) (team : Team) (initialPrompt buffer : String) : String :=
  "Eres el agente \x27" ++ agent.name ++ "\x27. \nEl objetivo general del equipo es: \""
    ++ team.objective ++ "\".\nLa tarea original del usuario fue: \"" ++ initialPrompt
    ++ "\".\nEl resultado de los pasos anteriores es:\n"
    ++ (if buffer = "" then "(Este es el primer paso)" else buffer)
    ++ "\n\nTu tarea actual es:\n" ++ agent.instructions
    ++ "\n\nBasado en toda esta información, ejecuta tu tarea y proporciona solo el resultado directo de tu trabajo."

/-- System message emitted for an unresolved member reference. -/
def unresolvedMsg (agentId : String) : String :=
  "[❌ Error] Agente con ID " ++ agentId ++ " no encontrado. Abortando."

/-- System message announcing dispatch to an agent. -/
def dispatchMsg (name : String) : String :=
  "[➡️ Asignando tarea a \x27" ++ name ++ "\x27]"

/-- System message announcing step completion. -/
def stepDoneMsg (name : String) : String :=
  "[✅ Tarea de \x27" ++ name ++ "\x27 completada]"

/-- System message emitted when a member's generation call throws. -/
def stepErrorMsg (name msg : String) : String :=
  "[❌ Error ejecutando \x27" ++ name ++ "\x27]: " ++ msg

/-- Result entry appended to the buffer on step success. -/
def resultMarker (name result : String) : String :=
  "\n\n--- Resultado de " ++ name ++ " ---\n" ++ result

/-- Error entry appended to the buffer on step failure. -/
def errorMarker (name msg : String) : String :=
  "\n\n--- Error de " ++ name ++ " ---\n" ++ msg

/-- The `for (const member of team.members)` loop of
`handleTeamExecution` (`src/unnamed/part_000` lines 680-716).  The
oracle `gen` models the whole `try` body up to `response.text`
(`.error m` models a thrown error, including a missing API key, with
message `m`).  An unresolved agent id emits one system error message and
continues; a thrown generation call emits the dispatch and error system
messages, appends the error marker to the buffer, and stops the loop
(`break`). -/
def runMembers (gen : String → Except String String) (allAgents : List Agent) (team : Team)
    (initialPrompt : String) : TeamState → List TeamMember → TeamState
  | s, [] => s
  | s, member :: rest =>
    match allAgents.find? fun a => a.id = member.agentId with
    | none =>
      runMembers gen allAgents team initialPrompt
        { s with messages := s.messages ++ [{ role := "system",
                                              text := unresolvedMsg member.agentId }] } rest
    | some agent =>
      match gen (promptForAgent agent team initialPrompt s.buffer) with
      | .ok raw =>
        runMembers gen allAgents team initialPrompt
          { messages := s.messages ++ [{ role := "system", text := dispatchMsg agent.name },
                                       { role := "system", text := stepDoneMsg agent.name }],
            buffer := s.buffer ++ resultMarker agent.name (jsTrim raw) } rest
      | .error msg =>
        { messages := s.messages ++ [{ role := "system", text := dispatchMsg agent.name },
                                     { role := "system", text := stepErrorMsg agent.name msg }],
          buffer := s.buffer ++ errorMarker agent.name msg }

/-- The fixed message substituted when the extracted final output is
empty. -/
def noResultMsg : String := "No se pudo generar un resultado final."

/-- The finalization `intermediateResults.split('---').pop()?.trim() ||
"..."` of `src/unnamed/part_000` line 721. -/
def finalOutput (buffer : String) : String :=
  let t := jsTrim ((jsSplit "---" buffer).getLastD "")
  if t = "" then noResultMsg else t

/-- Header system message announcing team name and objective. -/
def teamHeaderMsg (team : Team) : String :=
  "[⚙️ Equipo \x27" ++ team.name ++ "\x27 en marcha... Objetivo: " ++ team.objective ++ "]"

/-- Footer system message emitted after the member loop. -/
def teamFooterMsg : String := "[🏁 Ejecución del equipo finalizada]"

/-- The whole `handleTeamExecution` of `src/unnamed/part_000` lines
664-723: header system message, the member loop, footer system message,
and the single terminal model message. -/
def handleTeamExecution (gen : String → Except String String) (team : Team)
    (allAgents : List Agent) (initialPrompt : String) : TeamState :=
  let s0 : TeamState :=
    { messages := [{ role := "system", text := teamHeaderMsg team }], buffer := "" }
  let s1 := runMembers gen allAgents team initialPrompt s0 team.members
  { messages := (s1.messages ++ [{ role := "system", text := teamFooterMsg }])
      ++ [{ role := "model", text := finalOutput s1.buffer }],
    buffer := s1.buffer }

/-- C3: team pipeline failure asymmetry.  For any team state: a member
whose `agentId` does not resolve produces exactly one system error
message for that step and the loop continues with the remaining members,
whereas a member whose generation call throws produces the dispatch
message plus one system error message, appends the error marker to the
results buffer, and stops the loop: the result is a closed state
independent of the remaining members. -/
theorem c3_team_failure_asymmetry (gen : String → Except String String)
    (allAgents : List Agent) (team : Team) (initialPrompt : String) (s : TeamState)
    (member : TeamMember) (rest rest2 : List TeamMember) :
    ((allAgents.find? fun a => a.id = member.agentId) = none →
      runMembers gen allAgents team initialPrompt s (member :: rest)
        = runMembers gen allAgents team initialPrompt
            { s with messages := s.messages
                ++ [{ role := "system", text := unresolvedMsg member.agentId }] } rest) ∧
    (∀ agent msg, (allAgents.find? fun a => a.id = member.agentId) = some agent →
      gen (promptForAgent agent team initialPrompt s.buffer) = .error msg →
      runMembers gen allAgents team initialPrompt s (member :: rest)
          = { messages := s.messages
                ++ [{ role := "system", text := dispatchMsg agent.name },
                    { role := "system", text := stepErrorMsg agent.name msg }],
              buffer := s.buffer ++ errorMarker agent.name msg } ∧
      runMembers gen allAgents team initialPrompt s (member :: rest)
        = runMembers gen allAgents team initialPrompt s (member :: rest2)) := by
  constructor
  · intro hfind
    simp only [runMembers, hfind]
  · intro agent msg hfind hgen
    constructor
    · simp only [runMembers, hfind, hgen]
    · simp only [runMembers, hfind, hgen]

/-- Demo agent used in closed team instances. -/
def anaAgent : Agent :=
  { id := "a1", name := "Ana", instructions := "instrucciones de Ana", tools := [] }

/-- Second demo agent used in closed team instances. -/
def betoAgent : Agent :=
  { id := "a2", name := "Beto", instructions := "instrucciones de Beto", tools := [] }

/-- Demo team used in closed team instances. -/
def demoTeam : Team :=
  { id := "t1", name := "Equipo", objective := "objetivo",
    members := [{ agentId := "a1" }, { agentId := "a2" }] }

/-- Closed instance of C3: an unresolved member id is skipped with one
system error message and the next member is still processed, while a
throwing generation call stops the loop with the same closed state
whatever members would have followed. -/
theorem c3_team_failure_asymmetry_witness :
    (runMembers (fun _ => .error "boom") [anaAgent] demoTeam "tarea"
        { messages := [], buffer := "" } ({ agentId := "missing" } :: [{ agentId := "a1" }])
      = runMembers (fun _ => .error "boom") [anaAgent] demoTeam "tarea"
          { messages := [{ role := "system", text := unresolvedMsg "missing" }], buffer := "" }
          [{ agentId := "a1" }]) ∧
    (runMembers (fun _ => .error "boom") [anaAgent] demoTeam "tarea"
        { messages := [], buffer := "" } ({ agentId := "a1" } :: [])
      = { messages := [{ role := "system", text := dispatchMsg "Ana" },
                       { role := "system", text := stepErrorMsg "Ana" "boom" }],
          buffer := "" ++ errorMarker "Ana" "boom" } ∧
     runMembers (fun _ => .error "boom") [anaAgent] demoTeam "tarea"
         { messages := [], buffer := "" } ({ agentId := "a1" } :: [])
       = runMembers (fun _ => .error "boom") [anaAgent] demoTeam "tarea"
           { messages := [], buffer := "" }
           ({ agentId := "a1" } :: [{ agentId := "missing" }])) :=
  ⟨(c3_team_failure_asymmetry (fun _ => .error "boom") [anaAgent] demoTeam "tarea"
      { messages := [], buffer := "" } { agentId := "missing" }
      [{ agentId := "a1" }] []).1 (by decide),
   (c3_team_failure_asymmetry (fun _ => .error "boom") [anaAgent] demoTeam "tarea"
      { messages := [], buffer := "" } { agentId := "a1" }
      [] [{ agentId := "missing" }]).2 anaAgent "boom" (by decide) rfl⟩

/-- The member loop only ever emits system-role messages. -/
theorem runMembers_roles (gen : String → Except String String) (allAgents : List Agent)
    (team : Team) (initialPrompt : String) :
    ∀ (members : List TeamMember) (s : TeamState),
      (∀ m ∈ s.messages, m.role = "system") →
      ∀ m ∈ (runMembers gen allAgents team initialPrompt s members).messages,
        m.role = "system" := by
  intro members
  induction members with
  | nil => intro s h; exact h
  | cons member rest ih =>
    intro s h
    cases hfind : allAgents.find? fun a => a.id = member.agentId with
    | none =>
      simp only [runMembers, hfind]
      refine ih _ fun m hm => ?_
      rcases List.mem_append.mp hm with h1 | h1
      · exact h m h1
      · simp only [List.mem_singleton] at h1
        rw [h1]
    | some agent =>
      cases hgen : gen (promptForAgent agent team initialPrompt s.buffer) with
      | ok raw =>
        simp only [runMembers, hfind, hgen]
        refine ih _ fun m hm => ?_
        rcases List.mem_append.mp hm with h1 | h1
        · exact h m h1
        · rcases List.mem_cons.mp h1 with h2 | h2
          · rw [h2]
          · simp only [List.mem_singleton] at h2
            rw [h2]
      | error msg =>
        simp only [runMembers, hfind, hgen]
        intro m hm
        rcases List.mem_append.mp hm with h1 | h1
        · exact h m h1
        · rcases List.mem_cons.mp h1 with h2 | h2
          · rw [h2]
          · simp only [List.mem_singleton] at h2
            rw [h2]

/-- C7 (amended): team finalization.  Every team execution ends with
exactly one terminal model-role message (every other emitted message has
the system role); its text is the trimmed text following the last
occurrence of the separator token `---` anywhere in the accumulated
results buffer when that trimmed text is non-empty, and the fixed
no-result message otherwise (also when a member produced output so the
buffer is non-empty but the text after the last `---` trims to empty, or
when a member's own output contains `---`). -/
theorem c7_team_finalization (gen : String → Except String String) (team : Team)
    (allAgents : List Agent) (initialPrompt : String) :
    ∃ (msgs : List TeamMsg) (buffer : String),
      handleTeamExecution gen team allAgents initialPrompt
        = { messages := msgs ++ [{ role := "model", text := finalOutput buffer }],
            buffer := buffer } ∧
      (∀ m ∈ msgs, m.role = "system") ∧
      (jsTrim ((jsSplit "---" buffer).getLastD "") ≠ "" →
        finalOutput buffer = jsTrim ((jsSplit "---" buffer).getLastD "")) ∧
      (jsTrim ((jsSplit "---" buffer).getLastD "") = "" →
        finalOutput buffer = noResultMsg) := by
  refine ⟨(runMembers gen allAgents team initialPrompt
      { messages := [{ role := "system", text := teamHeaderMsg team }], buffer := "" }
      team.members).messages ++ [({ role := "system", text := teamFooterMsg } : TeamMsg)],
    (runMembers gen allAgents team initialPrompt
      { messages := [{ role := "system", text := teamHeaderMsg team }], buffer := "" }
      team.members).buffer, ?_, ?_, ?_, ?_⟩
  · rfl
  · intro m hm
    rcases List.mem_append.mp hm with h1 | h1
    · refine runMembers_roles gen allAgents team initialPrompt team.members _ ?_ m h1
      intro m2 hm2
      simp only [List.mem_singleton] at hm2
      rw [hm2]
    · simp only [List.mem_singleton] at h1
      rw [h1]
  · intro hne
    simp only [finalOutput]
    rw [if_neg hne]
  · intro heq
    simp only [finalOutput]
    rw [if_pos heq]

/-- Closed instance of the amended C7. -/
theorem c7_team_finalization_witness :
    ∃ (msgs : List TeamMsg) (buffer : String),
      handleTeamExecution (fun _ => .ok "resultado") demoTeam [anaAgent, betoAgent] "tarea"
        = { messages := msgs ++ [{ role := "model", text := finalOutput buffer }],
            buffer := buffer } ∧
      (∀ m ∈ msgs, m.role = "system") ∧
      (jsTrim ((jsSplit "---" buffer).getLastD "") ≠ "" →
        finalOutput buffer = jsTrim ((jsSplit "---" buffer).getLastD "")) ∧
      (jsTrim ((jsSplit "---" buffer).getLastD "") = "" →
        finalOutput buffer = noResultMsg) :=
  c7_team_finalization (fun _ => .ok "resultado") demoTeam [anaAgent, betoAgent] "tarea"

/-- Generation oracle for the C7 counterexample: Ana produces `hola`,
every other agent produces the empty string. -/
def c7Gen : String → Except String String :=
  fun p => if jsStartsWith p "Eres el agente \x27Ana" then .ok "hola" else .ok ""

set_option maxRecDepth 100000 in
/-- C7 counterexample: with two resolved members where the final member
produces an empty result, the buffer contains produced text (`hola` from
the first member) and the final member's raw output is the empty string,
yet the terminal model message is the fixed no-result message — the
fallback is NOT restricted to a buffer with no produced text, and the
terminal text is not the trimmed final member's output. -/
theorem c7_counterexample :
    (handleTeamExecution c7Gen demoTeam [anaAgent, betoAgent] "tarea").buffer
      = "\n\n--- Resultado de Ana ---\nhola\n\n--- Resultado de Beto ---\n" ∧
    (handleTeamExecution c7Gen demoTeam [anaAgent, betoAgent] "tarea").messages.getLastD
        { role := "", text := "" }
      = { role := "model", text := noResultMsg } ∧
    noResultMsg ≠ "" := by
  refine ⟨by decide, by decide, by decide⟩
